import Mathlib

/-
Verification of the report-normalization engine of the vuln-report-extractor
repository against its specification.

The Python sources are shallowly embedded:
  * strings are Lean `String` (Python `len`, slicing and per-character regex
    scanning all operate on code points, matching `String.length`/`List Char`);
  * Python dict-shaped records become association lists or structures;
  * JSON values parsed from embedded script data become the inductive `JVal`;
  * Python code that can raise (attribute errors on non-dict values inside
    strategy A of the extraction cascade) is embedded in `Except Unit`;
  * the regular expressions of the source (CVE_RE, IP_RE, PORT_RE,
    SEV_INLINE_RE, the digit patterns and the word-boundary severity digits)
    are embedded as direct left-to-right scanners which implement exactly the
    leftmost-match semantics those particular patterns have.
-/

set_option autoImplicit false

namespace VulnReport

/-! ## Character and string utilities -/

/-- Whitespace as stripped by Python `str.strip()` (ASCII subset; the inputs
of this code base contain no exotic Unicode spaces). -/
def isWs (c : Char) : Bool := c.isWhitespace

/-- Characters stripped by `.strip("[]'\"")` in `_clean_text_list_or_str`. -/
def isBq (c : Char) : Bool := c = '[' || c = ']' || c = '\'' || c = '"'

/-- Drop leading and trailing characters satisfying `p`, as Python
`str.strip(chars)` does. -/
def stripChars (p : Char → Bool) (l : List Char) : List Char :=
  ((l.dropWhile p).reverse.dropWhile p).reverse

/-- Python `str.strip()` on a string. -/
def trimStr (s : String) : String := (stripChars isWs s.toList).asString

/-- Python `str.lower()`; ASCII letters are lowered, CJK characters are
unchanged (as in Python). -/
def lowerStr (s : String) : String := (s.toList.map Char.toLower).asString

/-- Check that `needle` is a prefix of `hay` (character-exact). -/
def isPre : List Char → List Char → Bool
  | [], _ => true
  | _ :: _, [] => false
  | a :: asc, b :: bs => a = b && isPre asc bs

/-- Python substring containment `needle in hay`. -/
def containsSubL (needle : List Char) : List Char → Bool
  | [] => isPre needle []
  | c :: rest => isPre needle (c :: rest) || containsSubL needle rest

/-- Python substring containment on strings. -/
def strContains (hay needle : String) : Bool :=
  containsSubL needle.toList hay.toList

/-- Containment of any of the given alternatives in `s`, modelling
`any(x in s for x in alts)`. -/
def containsAnyIn (s : String) (alts : List String) : Bool :=
  alts.any (fun a => strContains s a)

/-- Containment of any of the given (already lowercase) alternatives in the
lowered form of `s`; models case-insensitive regex/`in` checks. -/
def containsAnyLower (s : String) (alts : List String) : Bool :=
  alts.any (fun a => strContains (lowerStr s) a)

/-- String comparison as Python `<` (lexicographic on code points). -/
def strLtL : List Char → List Char → Bool
  | [], [] => false
  | [], _ :: _ => true
  | _ :: _, [] => false
  | a :: asc, b :: bs => a.val < b.val || (a = b && strLtL asc bs)

/-- Python `x > y` on strings. -/
def strGtB (x y : String) : Bool := strLtL y.toList x.toList

/-- Join a list of strings with a newline, as `"\n".join(...)`. -/
def joinNL (l : List String) : String := String.intercalate "\n" l

/-- Join a list of strings with a space, as `" ".join(...)`. -/
def joinSp (l : List String) : String := String.intercalate " " l

/-! ## Embedded regular-expression scanners -/

/-- Separator characters allowed between the letters CVE and the year in
CVE_RE, the character class `[-_:\s]`. -/
def isCveSep (c : Char) : Bool := c = '-' || c = '_' || c = ':' || isWs c

/-- Match of `CVE[-_:\s]*\d{4}[-_]\d{4,7}` (case-insensitive) anchored at the
head of the character list; returns the matched text. The `\d{4}` element is a
fixed count, so a digit run longer than four at that point fails the match at
this position (no shorter take can succeed, exactly as regex backtracking
concludes), and the final `\d{4,7}` is greedy. -/
def matchCveAt : List Char → Option (List Char)
  | c :: v :: e :: rest =>
    if c.toLower = 'c' && v.toLower = 'v' && e.toLower = 'e' then
      let seps := rest.takeWhile isCveSep
      let r2 := rest.dropWhile isCveSep
      let drun := r2.takeWhile Char.isDigit
      if drun.length = 4 then
        match r2.drop 4 with
        | d :: r3 =>
          if d = '-' || d = '_' then
            let drun2 := (r3.takeWhile Char.isDigit).take 7
            if 4 ≤ drun2.length then
              some ([c, v, e] ++ seps ++ drun ++ [d] ++ drun2)
            else none
          else none
        | [] => none
      else none
    else none
  | _ => none

/-- Leftmost application of a head-anchored matcher, as `re.search`. -/
def scanFirst {α : Type} (f : List Char → Option α) : List Char → Option α
  | [] => f []
  | c :: rest =>
    match f (c :: rest) with
    | some r => some r
    | none => scanFirst f rest

/-- CVE_RE.search: leftmost match of the CVE pattern in `s`. -/
def cveSearch (s : String) : Option String :=
  (scanFirst matchCveAt s.toList).map List.asString

/-- Canonicalization applied to a CVE match in the source:
`.upper().replace('_', '-')`. -/
def canonCve (m : String) : String :=
  (m.toList.map (fun c => if c = '_' then '-' else c.toUpper)).asString

/-- Match of `(?:\d{1,3}\.){3}\d{1,3}` (IP_RE) anchored at the head. A digit
run longer than three before a required dot fails at this position (shorter
takes are followed by a digit, never a dot, exactly as backtracking
concludes); the final run is taken greedily up to three digits. -/
def matchIpAt (l : List Char) : Option (List Char) :=
  let d1 := l.takeWhile Char.isDigit
  if 1 ≤ d1.length && d1.length ≤ 3 then
    match l.drop d1.length with
    | '.' :: r1 =>
      let d2 := r1.takeWhile Char.isDigit
      if 1 ≤ d2.length && d2.length ≤ 3 then
        match r1.drop d2.length with
        | '.' :: r2 =>
          let d3 := r2.takeWhile Char.isDigit
          if 1 ≤ d3.length && d3.length ≤ 3 then
            match r2.drop d3.length with
            | '.' :: r3 =>
              let d4 := (r3.takeWhile Char.isDigit).take 3
              if 1 ≤ d4.length then
                some (d1 ++ '.' :: d2 ++ '.' :: d3 ++ '.' :: d4)
              else none
            | _ => none
          else none
        | _ => none
      else none
    | _ => none
  else none

/-- IP_RE.search: leftmost IPv4-shaped substring of `s`. -/
def ipSearch (s : String) : Option String :=
  (scanFirst matchIpAt s.toList).map List.asString

/-- Test modelling both `re.search(r'^\d{1,5}$', v)` and
`re.fullmatch(r'\d{1,5}', v)` of the source: the whole string is one to five
digits. (Table cell texts are produced with `strip=True`, so the
trailing-newline corner where the two Python forms differ cannot occur.) -/
def digits1to5 (s : String) : Bool :=
  s.toList.all Char.isDigit && 1 ≤ s.length && s.length ≤ 5

/-- Search `re.search(r'\d{1,5}', s)` (equally `(\d{1,5})`): the leftmost
digit run, greedily up to five digits. -/
def digitSearch5 (s : String) : Option String :=
  (scanFirst
    (fun l =>
      match l with
      | c :: _ =>
        if c.isDigit then some ((l.takeWhile Char.isDigit).take 5) else none
      | [] => none)
    s.toList).map List.asString

/-- Alternatives of SEV_INLINE_RE, in the alternation order of the source
pattern `(高危|中危|低危|严重|高|中|低|high|medium|low)` (lowercase; the regex
is compiled with re.I). -/
def sevAlts : List String :=
  ["高危", "中危", "低危", "严重", "高", "中", "低", "high", "medium", "low"]

/-- SEV_INLINE_RE.search: leftmost position, first alternative in pattern
order; returns the matched text of the original string (the match is
case-insensitive, the returned slice keeps the original case). -/
def sevSearch (s : String) : Option String :=
  (scanFirst
    (fun l =>
      sevAlts.findSome? (fun alt =>
        let n := alt.length
        if (l.take n).map Char.toLower = alt.toList then some (l.take n)
        else none))
    s.toList).map List.asString

/-- Separator class `[\s:：]` of PORT_RE. -/
def isPortSep (c : Char) : Bool := isWs c || c = ':' || c = '：'

/-- PORT_RE.search: leftmost match of `(?:port|端口)[\s:：]*([0-9]{1,5})`
(case-insensitive), returning the captured digit group. -/
def portSearch (s : String) : Option String :=
  (scanFirst
    (fun l =>
      let afterCue : Option (List Char) :=
        if (l.take 4).map Char.toLower = "port".toList then some (l.drop 4)
        else if l.take 2 = "端口".toList then some (l.drop 2)
        else none
      match afterCue with
      | some rest =>
        let r2 := rest.dropWhile isPortSep
        let d := (r2.takeWhile Char.isDigit).take 5
        if 1 ≤ d.length then some d else none
      | none => none)
    s.toList).map List.asString

/-- Word characters for the `\b` boundaries of `re.search(r'\b(4|5)\b', s)`.
Python `\w` is Unicode-aware; for the vocabulary of this code base it is
ASCII alphanumerics, the underscore and CJK ideographs. -/
def isWordChar (c : Char) : Bool :=
  c.isAlphanum || c = '_' || (0x4E00 ≤ c.val && c.val ≤ 0x9FFF)

/-- Scan for a standalone digit 4 or 5 (`\b(4|5)\b`), tracking the previous
character for the left boundary. -/
def standalone45Aux : Option Char → List Char → Bool
  | _, [] => false
  | prev, c :: rest =>
    if (c = '4' || c = '5')
        && (match prev with | none => true | some p => !isWordChar p)
        && (match rest with | [] => true | n :: _ => !isWordChar n) then
      true
    else standalone45Aux (some c) rest

/-- Containment of a standalone numeric severity 4 or 5 in `s`. -/
def standalone45 (s : String) : Bool := standalone45Aux none s.toList

/-! ## JSON-like values (results of json.loads on embedded script data) -/

/-- Values produced by `json.loads` in rsas2check.py. Objects are association
lists (json.loads yields unique keys, keeping the last duplicate; lookups
below take the first hit, which is therefore exact on parser output). -/
inductive JVal where
  | jnull : JVal
  | jbool : Bool → JVal
  | jnum : Int → JVal
  | jstr : String → JVal
  | jarr : List JVal → JVal
  | jobj : List (String × JVal) → JVal

/-- Python truthiness of a JSON value. -/
def truthy : JVal → Bool
  | .jnull => false
  | .jbool b => b
  | .jnum n => n ≠ 0
  | .jstr s => s ≠ ""
  | .jarr l => !l.isEmpty
  | .jobj l => !l.isEmpty

/-- Python `a or b` on JSON values. -/
def jor (a b : JVal) : JVal := if truthy a then a else b

/-- Python `str(v)` as far as the engine relies on it. Strings, numbers,
booleans and None are exact; the bracketed forms for containers are
simplified stand-ins (no claim below evaluates them). -/
def pyStr : JVal → String
  | .jstr s => s
  | .jnum n => toString n
  | .jbool b => if b then "True" else "False"
  | .jnull => "None"
  | .jarr _ => "[list]"
  | .jobj _ => "\x7bdict\x7d"

/-- Test for None, used where the source writes `if v is None` or skips
None values. -/
def isNull : JVal → Bool
  | .jnull => true
  | _ => false

/-! ## The text/value cleaner `_clean_text_list_or_str` -/

/-- Cleaning applied to one string: `s.strip().strip("[]'\"")` — whitespace
is stripped first, then bracket/quote characters. -/
def cleanStr (s : String) : String :=
  (stripChars isBq (stripChars isWs s.toList)).asString

/-- Embedding of `_clean_text_list_or_str`: a list joins its non-None
elements with newlines, each stringified and cleaned; None becomes the empty
string; anything else is stringified and cleaned. -/
def clean_text_list_or_str : JVal → String
  | .jarr l =>
    joinNL ((l.filter (fun x => !isNull x)).map (fun x => cleanStr (pyStr x)))
  | .jnull => ""
  | v => cleanStr (pyStr v)

/-! ## The severity normalizer `normalize_risk` -/

/-- Embedding of `normalize_risk` on strings (every call site outside
strategy A passes a string). The final line of the source returns the
original argument unchanged. -/
def normalize_risk (raw : String) : String :=
  if raw = "" then ""
  else
    let s := lowerStr (trimStr raw)
    if containsAnyIn s ["critical", "严重", "高危", "high"] then "高"
    else if containsAnyIn s ["中高", "中危", "medium", "中"] then "中"
    else if containsAnyIn s ["low", "低"] then "低"
    else if containsAnyIn s ["info", "信息", "informational"] then "信息"
    else if standalone45 s then "高"
    else raw


/-! ## Canonical record shape of `normalize_record` -/

/-- Canonical vulnerability record of rsas2check.py: the fields
IP, 端口, 漏洞名称, 风险等级, 漏洞说明, 加固建议, CVE (the 序号 column is
assigned only by the merge stage). -/
structure NRec where
  ip : String
  port : String
  name : String
  risk : String
  desc : String
  fixs : String
  cve : String
deriving DecidableEq, Repr

/-- Record with every field empty, the initial `out` of `normalize_record`. -/
def emptyNRec : NRec := ⟨"", "", "", "", "", "", ""⟩

/-- Raw record shape handed to `normalize_record`: a dict with string keys
and JSON-shaped values. -/
def RawRec : Type := List (String × JVal)

def ipRecKeys : List String := ["ip", "host", "ipaddress", "地址"]
def portRecKeys : List String := ["port", "端口"]
def nameRecKeys : List String := ["name", "title", "漏洞名称", "vuln", "漏洞"]
def riskRecKeys : List String := ["risk", "风险等级", "severity"]
def descRecKeys : List String := ["description", "漏洞说明", "desc"]
def fixRecKeys : List String := ["recommendation", "建议", "加固建议", "fix", "solution"]

/-- Processing of one key/value pair of a raw record by `normalize_record`:
the specific key rules, then the salvage pass over unrecognized keys (CVE and
severity only if still empty; description only if still empty and the cleaned
value is longer than ten characters). None values are skipped. -/
def nstep (out : NRec) (kv : String × JVal) : NRec :=
  if isNull kv.2 then out
  else
    let key := lowerStr (trimStr kv.1)
    let val := clean_text_list_or_str kv.2
    if key ∈ ipRecKeys then { out with ip := val }
    else if key ∈ portRecKeys then
      { out with port := (digitSearch5 val).getD val }
    else if key ∈ nameRecKeys then { out with name := val }
    else if key ∈ riskRecKeys then { out with risk := normalize_risk val }
    else if key ∈ descRecKeys then { out with desc := val }
    else if key ∈ fixRecKeys then { out with fixs := val }
    else if strContains key "cve" then
      { out with cve := ((cveSearch val).map canonCve).getD val }
    else
      let o1 :=
        match cveSearch val with
        | some m => if out.cve = "" then { out with cve := canonCve m } else out
        | none => out
      let o2 :=
        if o1.risk = "" then
          match sevSearch val with
          | some g => { o1 with risk := normalize_risk g }
          | none => o1
        else o1
      if 10 < val.length && o2.desc = "" then { o2 with desc := val } else o2

/-- Embedding of `normalize_record`. -/
def normalize_record (d : RawRec) : NRec := d.foldl nstep emptyNRec

/-! ## Tabular extraction (`extract_from_table`) -/

/-- HEADER_MAP of the source, as an ordered association list (the Python dict
iterates in insertion order); the alias collections are sets in the source,
used only for membership. -/
def HEADER_MAP : List (String × List String) :=
  [("ip", ["ip", "主机", "地址", "资产地址", "host", "ip地址"]),
   ("port", ["端口", "服务端口", "port", "端口号", "协议/端口", "协议端口", "服务", "protocol/port"]),
   ("name", ["漏洞名称", "名称", "漏洞", "问题", "title", "name"]),
   ("risk", ["风险等级", "风险", "severity", "威胁等级", "等级"]),
   ("desc", ["漏洞说明", "漏洞描述", "描述", "说明", "description", "detail", "details"]),
   ("fix", ["加固建议", "修复建议", "解决办法", "整改建议", "处理建议", "建议", "修复措施", "处置建议", "remediation", "solution"]),
   ("cve", ["cve", "编号", "cve编号", "参考编号", "reference", "vul id"])]

/-- Embedding of `normalize_key`: strip and lower the key, then replace it by
its canonical name when it appears in one of the alias families. -/
def normalize_key (k : String) : String :=
  let k2 := lowerStr (trimStr k)
  match HEADER_MAP.find? (fun p => p.2.any (fun a => lowerStr a = k2)) with
  | some p => p.1
  | none => k2

/-- Table as handed to `extract_from_table`: the texts of its th cells and
the cell texts of each tr (BeautifulSoup extraction of text is outside the
engine; cell texts are produced with strip=True). -/
structure HTable where
  ths : List String
  trs : List (List String)

/-- Header names and data rows of a table: th texts if any exist (data rows
are then all tr but the first), else the first tr is the header row. -/
def tableHeaderData (t : HTable) : List String × List (List String) :=
  if t.ths.isEmpty then
    match t.trs with
    | [] => ([], [])
    | first :: rest => (first, rest)
  else (t.ths, t.trs.drop 1)

/-- Dict insertion: an existing key is updated in place, a new key is
appended, as Python dict construction does. -/
def dictInsert (d : List (String × String)) (kv : String × String) :
    List (String × String) :=
  if d.any (fun p => p.1 = kv.1) then
    d.map (fun p => if p.1 = kv.1 then kv else p)
  else d ++ [kv]

/-- Row dict of `extract_from_table`: cell i is stored under normalized
header i, or under a positional fallback key when headers are exhausted;
duplicate normalized headers collapse, the later cell winning. -/
def mkRow (hn : List String) (cols : List String) : List (String × String) :=
  ((List.range cols.length).map
    (fun i => (hn.getD i ("col" ++ toString i), cols.getD i ""))).foldl
    dictInsert []

/-- Row test: some cell contains an IPv4-shaped substring. -/
def rowHasIp (row : List (String × String)) : Bool :=
  row.any (fun p => (ipSearch p.2).isSome)

/-- Row test: some cell is purely one to five digits. -/
def rowHasPort (row : List (String × String)) : Bool :=
  row.any (fun p => digits1to5 p.2)

/-- Row test: one of the vulnerability-indicating keys resolved among the
headers of this row. -/
def rowHasVulnKeys (row : List (String × String)) : Bool :=
  ["name", "risk", "desc", "fix", "cve"].any
    (fun k => row.any (fun p => p.1 = k))

/-- One step of the IP/port extraction loop of the port-row branch: a cell
matching the IP pattern overwrites the IP, a pure-digit cell overwrites the
port (the loop keeps the last match of each). -/
def ipPortStep (acc : Option String × Option String) (p : String × String) :
    Option String × Option String :=
  (match ipSearch p.2 with
   | some g => some g
   | none => acc.1,
   if digits1to5 p.2 then some p.2 else acc.2)

/-- IP and port extraction of the port-row branch. -/
def rowIpPort (row : List (String × String)) : Option String × Option String :=
  row.foldl ipPortStep (none, none)

/-- Empty vulnerability-row accumulator of the table branch. -/
def emptyVR : NRec := emptyNRec

/-- Processing of one key/cell pair in the vulnerability branch of
`extract_from_table` (each canonical field is set by the first key mapping to
it; row dicts have unique keys, so each guard fires at most once). -/
def vstep (vr : NRec) (kv : String × String) : NRec :=
  let txt := cleanStr kv.2
  if kv.1 = "ip" && vr.ip = "" then
    { vr with ip := (ipSearch txt).getD txt }
  else if kv.1 = "port" && vr.port = "" then
    { vr with port := (digitSearch5 txt).getD txt }
  else if kv.1 = "name" && vr.name = "" then { vr with name := txt }
  else if kv.1 = "risk" && vr.risk = "" then
    { vr with risk := (sevSearch txt).getD txt }
  else if kv.1 = "desc" && vr.desc = "" then { vr with desc := txt }
  else if kv.1 = "fix" && vr.fixs = "" then { vr with fixs := txt }
  else if kv.1 = "cve" && vr.cve = "" then
    { vr with cve := ((cveSearch txt).map canonCve).getD txt }
  else vr

/-- Vulnerability row of a table row: field mapping over the row dict, then
the one-shot CVE re-scan of the joined cell texts when no CVE was found. -/
def buildVr (row : List (String × String)) (cols : List String) : NRec :=
  let vr := row.foldl vstep emptyVR
  if vr.cve = "" then
    match cveSearch (joinSp cols) with
    | some m => { vr with cve := canonCve m }
    | none => vr
  else vr

/-- Retention test of the table branch: a row counts as a vulnerability only
if name, description, CVE or severity is non-empty. -/
def vrRetained (vr : NRec) : Bool :=
  vr.name ≠ "" || vr.desc ≠ "" || vr.cve ≠ "" || vr.risk ≠ ""

/-- Processing of one data row of a table: empty cell lists are skipped; a
row with an IP-shaped cell and a pure-digit cell and no vulnerability key is
a port row (emitted only when both extractions succeed); every other row runs
the vulnerability branch and is kept only when `vrRetained` holds. -/
def processRow (hn : List String) (cols : List String) :
    List NRec × List (String × String) :=
  if cols.isEmpty then ([], [])
  else
    let row := mkRow hn cols
    if rowHasIp row && rowHasPort row && !rowHasVulnKeys row then
      match rowIpPort row with
      | (some ip, some port) => ([], [(ip, port)])
      | _ => ([], [])
    else
      let vr := buildVr row cols
      (if vrRetained vr then [vr] else [], [])

/-- Embedding of `extract_from_table`. -/
def extract_from_table (t : HTable) : List NRec × List (String × String) :=
  let hd := tableHeaderData t
  let hn := hd.1.map normalize_key
  hd.2.foldl
    (fun acc cols =>
      let r := processRow hn cols
      (acc.1 ++ r.1, acc.2 ++ r.2))
    ([], [])

/-! ## Free-text block extraction (`extract_from_blocks`) -/

/-- Block-level node: its own text and the texts of its following sibling
tag nodes in document order (nodes without text extraction are outside the
model; empty sibling texts are skipped by the code itself). -/
structure Block where
  text : String
  sibs : List String

/-- Label cue of the name field: `漏洞名称|名称|问题|title` (re.I). -/
def labelName (st : String) : Bool :=
  containsAnyLower st ["漏洞名称", "名称", "问题", "title"]

/-- Label cue of the description field:
`漏洞说明|漏洞描述|描述|说明|description` (re.I). -/
def labelDesc (st : String) : Bool :=
  containsAnyLower st ["漏洞说明", "漏洞描述", "描述", "说明", "description"]

/-- Label cue of the remediation field:
`加固建议|修复建议|整改建议|解决办法|处理建议|solution|remediation` (re.I). -/
def labelFix (st : String) : Bool :=
  containsAnyLower st
    ["加固建议", "修复建议", "整改建议", "解决办法", "处理建议", "solution", "remediation"]

/-- Python slicing `s[:n]` by code points. -/
def takeStr (s : String) (n : Nat) : String := (s.toList.take n).asString

/-- Scan of the following sibling texts for labelled name/description/
remediation fields, stopping early once all three are filled; empty texts
are skipped; the remediation text is cleaned. -/
def sibScan (vr : NRec) : List String → NRec
  | [] => vr
  | st :: rest =>
    if st = "" then sibScan vr rest
    else
      let v1 := if vr.name = "" && labelName st then { vr with name := st } else vr
      let v2 := if v1.desc = "" && labelDesc st then { v1 with desc := st } else v1
      let v3 :=
        if v2.fixs = "" && labelFix st then { v2 with fixs := cleanStr st } else v2
      if v3.name ≠ "" && v3.desc ≠ "" && v3.fixs ≠ "" then v3
      else sibScan v3 rest

/-- Processing of one block: blocks shorter than 20 characters are skipped;
a block with an IP and a port cue yields a port pair; a block with a CVE
pattern, the word 漏洞 or a severity token yields a vulnerability candidate,
with degraded name/description fallbacks from the block text. -/
def processBlock (b : Block) : List NRec × List (String × String) :=
  if b.text.length < 20 then ([], [])
  else
    let ipm := ipSearch b.text
    let pm := portSearch b.text
    let pairs :=
      match ipm, pm with
      | some ip, some port => [(ip, port)]
      | _, _ => []
    let cvem := cveSearch b.text
    let sevm := sevSearch b.text
    if cvem.isSome || strContains b.text "漏洞" || sevm.isSome then
      let vr0 : NRec :=
        { ip := ipm.getD ""
          port := pm.getD ""
          name := ""
          risk := sevm.getD ""
          desc := ""
          fixs := ""
          cve := (cvem.map canonCve).getD "" }
      let vr1 := sibScan vr0 b.sibs
      let vr2 :=
        { vr1 with name := if vr1.name = "" then takeStr b.text 120 else vr1.name }
      let vr3 :=
        { vr2 with desc := if vr2.desc = "" then takeStr b.text 1500 else vr2.desc }
      ([vr3], pairs)
    else ([], pairs)

/-- Embedding of `extract_from_blocks`. -/
def extract_from_blocks (bs : List Block) : List NRec × List (String × String) :=
  bs.foldl
    (fun acc b =>
      let r := processBlock b
      (acc.1 ++ r.1, acc.2 ++ r.2))
    ([], [])

/-! ## Strategy A: embedded structured data -/

/-- First binding of a key in an object association list (exact on json.loads
output, whose keys are unique). -/
def jFind (kvs : List (String × JVal)) (k : String) : Option JVal :=
  (kvs.find? (fun p => p.1 = k)).map (fun p => p.2)

/-- Python `j.get(k)`: None when the key is absent; an attribute error — the
error of the embedding — when `j` is not a dict. -/
def jGetE (j : JVal) (k : String) : Except Unit JVal :=
  match j with
  | .jobj kvs => .ok ((jFind kvs k).getD .jnull)
  | _ => .error ()

/-- Python `j.get(k, d)` with an explicit default. -/
def jGetDE (j : JVal) (k : String) (d : JVal) : Except Unit JVal :=
  match j with
  | .jobj kvs => .ok ((jFind kvs k).getD d)
  | _ => .error ()

/-- Normalization of the risk argument inside strategy A, where the raw
value is an arbitrary JSON value (the source calls `normalize_risk`, which
stringifies it); a falsy value yields the empty string, an unrecognized
truthy value is returned unchanged. -/
def normalizeRiskJ (j : JVal) : JVal :=
  if !truthy j then .jstr ""
  else
    let s := lowerStr (trimStr (pyStr j))
    if containsAnyIn s ["critical", "严重", "高危", "high"] then .jstr "高"
    else if containsAnyIn s ["中高", "中危", "medium", "中"] then .jstr "中"
    else if containsAnyIn s ["low", "低"] then .jstr "低"
    else if containsAnyIn s ["info", "信息", "informational"] then .jstr "信息"
    else if standalone45 s then .jstr "高"
    else j

/-- Container keys whose values are collected by `_walk_for_lists`. -/
def keynames : List String :=
  ["vul_items", "vuls", "solve_items", "vul_info", "vulnerabilities", "vuls_list"]

mutual

/-- Embedding of `_walk_for_lists`: collect every value reachable under one
of the given keys, at any nesting depth. -/
def walk (keys : List String) : JVal → List JVal
  | .jobj kvs => walkObj keys kvs
  | .jarr l => walkArr keys l
  | _ => []

/-- Walk over the bindings of an object. -/
def walkObj (keys : List String) : List (String × JVal) → List JVal
  | [] => []
  | kv :: rest =>
    (if kv.1 ∈ keys then [kv.2] else walk keys kv.2) ++ walkObj keys rest

/-- Walk over the elements of an array. -/
def walkArr (keys : List String) : List JVal → List JVal
  | [] => []
  | v :: rest => walk keys v ++ walkArr keys rest

end

/-- Item extraction from a collected container: a list contributes its
elements, a dict contributes the elements of its list-valued entries,
anything else contributes nothing. -/
def itemsOf : JVal → List JVal
  | .jarr l => l
  | .jobj kvs =>
    kvs.foldl
      (fun acc kv =>
        match kv.2 with
        | .jarr l => acc ++ l
        | _ => acc)
      []
  | _ => []

/-- Processing of one sub-vulnerability in the nested (per-port) branch of
strategy A. Returns the raw record and the port pairs it contributes. -/
def stratANested (entry portJ subv : JVal) :
    Except Unit (List (String × JVal) × List (JVal × String)) := do
  let vmsg ← jGetE subv "vul_msg"
  let vm := jor vmsg subv
  let h1 ← jGetE vm "host_ip"
  let h2 ← jGetE vm "host"
  let h3 ← jGetDE entry "host_ip" (.jstr "")
  let ip := jor (jor (jor h1 h2) h3) (.jstr "")
  let c1 ← jGetE vm "cve_id"
  let c2 ← jGetE vm "cve"
  let c3 ← jGetDE vm "cncve" (.jstr "")
  let cve := jor (jor (jor c1 c2) c3) (.jstr "")
  let n1 ← jGetE vm "i18n_name"
  let n2 ← jGetE vm "threat"
  let n3 ← jGetDE subv "i18n_name" (.jstr "")
  let nameJ := jor (jor (jor n1 n2) n3) (.jstr "")
  let name2 :=
    match nameJ with
    | .jarr l => l.headD (.jstr "")
    | v => v
  let d0 ← jGetE vm "i18n_description"
  let descJ ←
    match d0 with
    | .jarr l => pure (JVal.jstr (joinNL (l.map clean_text_list_or_str)))
    | _ => do
        let e1 ← jGetE vm "exp_desc"
        let e2 ← jGetDE subv "exp_desc" (.jstr "")
        pure (jor (jor (jor d0 e1) e2) (.jstr ""))
  let sol ← jGetE vm "i18n_solution"
  let fixTxt := if isNull sol then "" else clean_text_list_or_str sol
  let l1 ← jGetE subv "vul_level"
  let l2 ← jGetE subv "threat_level"
  let l3 ← jGetE vm "vul_level"
  let l4 ← jGetDE vm "threat_level" (.jstr "")
  let level := jor (jor (jor l1 l2) l3) l4
  let recR : List (String × JVal) :=
    [("IP", jor ip (.jstr "")),
     ("端口", .jstr (if truthy portJ then pyStr portJ else "")),
     ("漏洞名称", .jstr (if truthy name2 then clean_text_list_or_str name2 else "")),
     ("风险等级", normalizeRiskJ level),
     ("漏洞说明", .jstr (if truthy descJ then clean_text_list_or_str descJ else "")),
     ("加固建议", .jstr fixTxt),
     ("CVE", .jstr (if truthy cve then clean_text_list_or_str cve else ""))]
  let pairs := if truthy ip && truthy portJ then [(ip, pyStr portJ)] else []
  pure (recR, pairs)

/-- Processing of one flat entry of strategy A. -/
def stratAFlat (entry : JVal) :
    Except Unit (List (String × JVal) × List (JVal × String)) := do
  let vmsg ← jGetE entry "vul_msg"
  let vm := jor vmsg entry
  let h1 ← jGetE vm "host_ip"
  let h2 ← jGetE vm "host"
  let h3 ← jGetDE entry "host_ip" (.jstr "")
  let ip := jor (jor (jor h1 h2) h3) (.jstr "")
  let p1 ← jGetE entry "port"
  let p2 ← jGetE vm "port"
  let port := jor (jor p1 p2) (.jstr "")
  let c1 ← jGetE vm "cve_id"
  let c2 ← jGetE vm "cve"
  let c3 ← jGetDE vm "cncve" (.jstr "")
  let cve := jor (jor (jor c1 c2) c3) (.jstr "")
  let n1 ← jGetE vm "i18n_name"
  let n2 ← jGetE vm "threat"
  let n3 ← jGetDE entry "i18n_name" (.jstr "")
  let nameJ := jor (jor (jor n1 n2) n3) (.jstr "")
  let name2 :=
    match nameJ with
    | .jarr l => l.headD (.jstr "")
    | v => v
  let d0 ← jGetE vm "i18n_description"
  let descJ ←
    match d0 with
    | .jarr l => pure (JVal.jstr (joinNL (l.map clean_text_list_or_str)))
    | _ => do
        let e1 ← jGetE vm "exp_desc"
        let e2 ← jGetDE entry "exp_desc" (.jstr "")
        pure (jor (jor (jor d0 e1) e2) (.jstr ""))
  let sol ← jGetE vm "i18n_solution"
  let fixTxt := if isNull sol then "" else clean_text_list_or_str sol
  let l1 ← jGetE entry "vul_level"
  let l2 ← jGetE vm "vul_level"
  let l3 ← jGetE entry "threat_level"
  let l4 ← jGetDE vm "threat_level" (.jstr "")
  let level := jor (jor (jor l1 l2) l3) l4
  let recR : List (String × JVal) :=
    [("IP", .jstr (if truthy ip then clean_text_list_or_str ip else "")),
     ("端口", .jstr (if truthy port then pyStr port else "")),
     ("漏洞名称", .jstr (if truthy name2 then clean_text_list_or_str name2 else "")),
     ("风险等级", normalizeRiskJ level),
     ("漏洞说明", .jstr (if truthy descJ then clean_text_list_or_str descJ else "")),
     ("加固建议", .jstr fixTxt),
     ("CVE", .jstr (if truthy cve then clean_text_list_or_str cve else ""))]
  let pairs := if truthy ip && truthy port then [(ip, pyStr port)] else []
  pure (recR, pairs)

/-- Dispatch over one collected item: non-dict items are skipped; a dict with
a list-valued vuls entry runs the nested branch per sub-vulnerability, any
other dict runs the flat branch. -/
def stratAEntry (entry : JVal) :
    Except Unit (List (List (String × JVal)) × List (JVal × String)) :=
  match entry with
  | .jobj kvs =>
    match jFind kvs "vuls" with
    | some (.jarr subvs) =>
      let portJ :=
        jor (jor ((jFind kvs "port").getD .jnull)
              ((jFind kvs "service_port").getD .jnull))
          (.jstr "")
      subvs.foldlM
        (fun acc subv => do
          let r ← stratANested (JVal.jobj kvs) portJ subv
          pure (acc.1 ++ [r.1], acc.2 ++ r.2))
        ([], [])
    | _ => do
      let r ← stratAFlat (JVal.jobj kvs)
      pure ([r.1], r.2)
  | _ => pure ([], [])

/-- Strategy A on a successfully parsed embedded object: collect the
containers, iterate their items, accumulate raw records and port pairs. -/
def strategyA (parsed : JVal) :
    Except Unit (List (List (String × JVal)) × List (JVal × String)) :=
  (walk keynames parsed).foldlM
    (fun acc lst =>
      (itemsOf lst).foldlM
        (fun acc2 entry => do
          let r ← stratAEntry entry
          pure (acc2.1 ++ r.1, acc2.2 ++ r.2))
        acc)
    ([], [])

/-! ## The extraction cascade (`parse_html_file`) -/

/-- Document as seen by `parse_html_file` after markup parsing: the outcome
of the embedded-object parse attempts (marker search plus strict/lenient
json.loads over window.data and candidate script blocks), the tables and the
block-level text nodes. -/
structure Doc where
  parsed : Option JVal
  tables : List HTable
  blocks : List Block

/-- Conversion of a table/block row into the raw-record shape handed to
`normalize_record` (key insertion order of the source dict literal). -/
def vrToRaw (vr : NRec) : List (String × JVal) :=
  [("IP", .jstr vr.ip), ("端口", .jstr vr.port), ("漏洞名称", .jstr vr.name),
   ("风险等级", .jstr vr.risk), ("漏洞说明", .jstr vr.desc),
   ("加固建议", .jstr vr.fixs), ("CVE", .jstr vr.cve)]

/-- Vulnerability rows contributed by all tables, in document order. -/
def tableVulnsOf (ts : List HTable) : List NRec :=
  ts.foldl (fun acc t => acc ++ (extract_from_table t).1) []

/-- Port pairs contributed by all tables, in document order. -/
def tablePortsOf (ts : List HTable) : List (String × String) :=
  ts.foldl (fun acc t => acc ++ (extract_from_table t).2) []

/-- Return value of the strategy-A branch of `parse_html_file`: every raw
record normalized, the port pairs as collected. -/
def stratAResult (p : JVal) : Except Unit (List NRec × List (JVal × String)) := do
  let r ← strategyA p
  pure (r.1.map normalize_record, r.2)

/-- Return value of the fallback branch of `parse_html_file`: strategies B
(tables) and C (text blocks) both run and their outputs are concatenated,
then every row is normalized. -/
def fallbackResult (d : Doc) : List NRec × List (JVal × String) :=
  let tv := tableVulnsOf d.tables
  let tp := tablePortsOf d.tables
  let br := extract_from_blocks d.blocks
  (((tv ++ br.1).map vrToRaw).map normalize_record,
   (tp ++ br.2).map (fun pr => (JVal.jstr pr.1, pr.2)))

/-- Embedding of `parse_html_file`: the strategy-A branch runs exactly when
the embedded-object parse succeeded, regardless of how many items it
collects; otherwise tables and blocks both run. -/
def parse_html_file (d : Doc) : Except Unit (List NRec × List (JVal × String)) :=
  match d.parsed with
  | some p => stratAResult p
  | none => .ok (fallbackResult d)

/-! ## Merge of extracted vulnerabilities (`merge_vulns`, rsas2check.py) -/

/-- Identity key of a canonical record: the tuple (IP, 端口, 漏洞名称, CVE),
each stripped of surrounding whitespace. -/
def vulnKey (r : NRec) : String × String × String × String :=
  (trimStr r.ip, trimStr r.port, trimStr r.name, trimStr r.cve)

/-- First pass of `merge_vulns`: keep the first record of each identity key,
drop every later record with a key already seen. -/
def dedupVulns (seen : List (String × String × String × String)) :
    List NRec → List NRec
  | [] => []
  | r :: rs =>
    if vulnKey r ∈ seen then dedupVulns seen rs
    else r :: dedupVulns (vulnKey r :: seen) rs

/-- Sequence numbering `enumerate(out, start=i)`. -/
def renumberFrom {α : Type} (i : Nat) : List α → List (Nat × α)
  | [] => []
  | r :: rs => (i, r) :: renumberFrom (i + 1) rs

/-- Embedding of `merge_vulns`: dedup by identity key (first occurrence
wins), then assign 序号 = 1..N in surviving order. The final loop of the
source replaces falsy field values by the empty string, which is the
identity on the string fields of the embedding. -/
def merge_vulns (records : List NRec) : List (Nat × NRec) :=
  renumberFrom 1 (dedupVulns [] records)

/-! ## rsas.py: column resolver -/

/-- COLUMN_CANDIDATES of rsas.py, as an ordered association list. -/
def COLUMN_CANDIDATES : List (String × List String) :=
  [("序号", ["序号", "id", "编号", "no", "number"]),
   ("IP", ["IP", "IP地址", "ipaddress", "ip address", "host"]),
   ("端口", ["端口", "port"]),
   ("漏洞名称", ["漏洞名称", "名称", "漏洞", "vuln name", "vulnerability name"]),
   ("风险等级", ["风险等级", "等级", "risk level", "severity"]),
   ("漏洞说明", ["漏洞说明", "漏洞描述", "描述", "description"]),
   ("加固建议", ["加固建议", "整改建议", "修复建议", "建议", "recommendation", "remediation"]),
   ("CVE", ["CVE", "漏洞CVE编号", "CVE编号", "cve id", "漏洞CVE"])]

/-- Separator characters removed by `normalize` of rsas.py: the character
class `[\s_：:，,。\.\-]`. -/
def isNormSep (c : Char) : Bool :=
  isWs c || c = '_' || c = '：' || c = ':' || c = '，' || c = ',' || c = '。'
    || c = '.' || c = '-'

/-- Embedding of `normalize` (rsas.py): strip, lower, then delete every
separator character. -/
def normalize (s : String) : String :=
  ((lowerStr (trimStr s)).toList.filter (fun c => !isNormSep c)).asString

/-- Normalized column names in dict-key order (first occurrence of each
normalized form), the `norms` list of the source. -/
def dedupStr (seen : List String) : List String → List String
  | [] => []
  | x :: xs =>
    if x ∈ seen then dedupStr seen xs else x :: dedupStr (x :: seen) xs

/-- Keys of the `norm_map` dict in insertion order. -/
def normsOf (cols : List String) : List String :=
  dedupStr [] (cols.map normalize)

/-- Lookup in `norm_map`: the value stored under a normalized name is the
last column with that normalized form (later dict writes win). -/
def normMapGet (cols : List String) (nk : String) : Option String :=
  cols.reverse.find? (fun c => normalize c = nk)

/-! ### difflib: SequenceMatcher ratio, get_close_matches -/

/-- Length of the common prefix of two character lists. -/
def cpl : List Char → List Char → Nat
  | a :: asc, b :: bs => if a = b then cpl asc bs + 1 else 0
  | _, _ => 0

/-- All candidate matching blocks (start in a, start in b, length of the
common run at those starts). -/
def flmPairs (a b : List Char) : List (Nat × Nat × Nat) :=
  (List.range a.length).flatMap
    (fun i => (List.range b.length).map
      (fun j => (i, j, cpl (a.drop i) (b.drop j))))

/-- Choice of find_longest_match: the longest block, ties broken towards the
earliest position in a, then in b (the enumeration order of `flmPairs`; a
strict comparison keeps the earliest maximum). -/
def flm (a b : List Char) : Nat × Nat × Nat :=
  (flmPairs a b).foldl (fun best c => if best.2.2 < c.2.2 then c else best)
    (0, 0, 0)

theorem cpl_le_left (a b : List Char) : cpl a b ≤ a.length := by
  induction a generalizing b with
  | nil => simp [cpl]
  | cons x xs ih =>
    cases b with
    | nil => simp [cpl]
    | cons y ys =>
      simp only [cpl]
      split
      · simpa [Nat.succ_le_succ_iff] using ih ys
      · simp

theorem cpl_le_right (a b : List Char) : cpl a b ≤ b.length := by
  induction a generalizing b with
  | nil => simp [cpl]
  | cons x xs ih =>
    cases b with
    | nil => simp [cpl]
    | cons y ys =>
      simp only [cpl]
      split
      · simpa [Nat.succ_le_succ_iff] using ih ys
      · simp

theorem foldl_choice {γ : Type} (f : γ → γ → γ)
    (hf : ∀ x y, f x y = x ∨ f x y = y) (init : γ) (l : List γ) :
    l.foldl f init = init ∨ l.foldl f init ∈ l := by
  induction l generalizing init with
  | nil => simp
  | cons x xs ih =>
    simp only [List.foldl_cons]
    rcases ih (f init x) with h | h
    · rw [h]
      rcases hf init x with h2 | h2
      · left; exact h2
      · right; simp [h2]
    · right; simp [h]

theorem flm_bounds (a b : List Char) :
    (flm a b).2.2 = 0 ∨
      (1 ≤ (flm a b).2.2 ∧ (flm a b).1 + (flm a b).2.2 ≤ a.length ∧
        (flm a b).2.1 + (flm a b).2.2 ≤ b.length) := by
  have hmem := foldl_choice
    (fun best c => if best.2.2 < c.2.2 then c else best)
    (by
      intro x y
      by_cases h : x.2.2 < y.2.2
      · right; simp [h]
      · left; simp [h])
    (0, 0, 0) (flmPairs a b)
  rcases hmem with h | h
  · left; rw [flm, h]
  · rw [flm] at *
    set t := (flmPairs a b).foldl
      (fun best c => if best.2.2 < c.2.2 then c else best) (0, 0, 0) with ht
    rcases Nat.eq_zero_or_pos t.2.2 with hz | hp
    · left; exact hz
    · right
      refine ⟨hp, ?_, ?_⟩ <;>
      · simp only [flmPairs, List.mem_flatMap, List.mem_map, List.mem_range] at h
        obtain ⟨i, hi, j, hj, hval⟩ := h
        have h1 := cpl_le_left (a.drop i) (b.drop j)
        have h2 := cpl_le_right (a.drop i) (b.drop j)
        simp only [List.length_drop] at h1 h2
        rw [← hval]
        simp only []
        omega

/-- Total number of matching characters of SequenceMatcher
(Ratcliff–Obershelp), fuelled form: the longest block plus the matches of
the pieces to its left and to its right. The fuel only bounds the recursion
depth; by `flm_bounds` every recursive call strictly decreases the summed
length, so any fuel of at least that sum computes the function. -/
def matchesMF : Nat → List Char → List Char → Nat
  | 0, _, _ => 0
  | fuel + 1, a, b =>
    match flm a b with
    | (i, j, k) =>
      if k = 0 then 0
      else
        matchesMF fuel (a.take i) (b.take j) + k +
          matchesMF fuel (a.drop (i + k)) (b.drop (j + k))

/-- Total number of matching characters of SequenceMatcher with adequate
fuel. -/
def matchesM (a b : List Char) : Nat := matchesMF (a.length + b.length) a b

/-- SequenceMatcher.ratio of possibility `x` against word `w`:
2M / (len x + len w), and 1.0 when both are empty. The float comparison the
source performs against the cutoff 0.6 coincides with exact rational
comparison for every reachable value (the true ratios are rationals with
tiny denominators, never within a float ulp of 0.6 except at exactly 0.6,
where both roundings agree). -/
def ratioQ (x w : String) : ℚ :=
  if x.length + w.length = 0 then 1
  else mkRat (2 * (matchesM x.toList w.toList)) (x.length + w.length)

/-- Embedding of `difflib.get_close_matches(word, poss, n=1, cutoff=0.6)`:
keep the possibilities with ratio at least 0.6 (the quick-ratio pre-filters
of the source are upper bounds of the ratio and can never exclude one of
these), then pick the largest (ratio, string) pair — heapq.nlargest compares
the score tuples, so ties on the ratio go to the lexicographically larger
string. -/
def getCloseMatches1 (word : String) (poss : List String) : Option String :=
  match poss.filter (fun x => mkRat 3 5 ≤ ratioQ x word) with
  | [] => none
  | h :: t =>
    some (t.foldl
      (fun best x =>
        if ratioQ best word < ratioQ x word
            || (ratioQ x word = ratioQ best word && strGtB x best) then x
        else best)
      h)

/-- Phase 1 of `find_best_col_for_target`: exact match of a normalized
keyword among the normalized column names. -/
def resolvePhase1 (kws cols : List String) : Option String :=
  kws.findSome? (fun kw => normMapGet cols (normalize kw))

/-- Phase 2: a non-empty normalized keyword that is a substring of a
normalized column name. -/
def resolvePhase2 (kws cols : List String) : Option String :=
  kws.findSome? (fun kw =>
    let nk := normalize kw
    if nk = "" then none
    else
      (normsOf cols).findSome? (fun n =>
        if strContains n nk then normMapGet cols n else none))

/-- Phase 3: difflib fuzzy match at cutoff 0.6. -/
def resolvePhase3 (kws cols : List String) : Option String :=
  kws.findSome? (fun kw =>
    match getCloseMatches1 (normalize kw) (normsOf cols) with
    | some n => normMapGet cols n
    | none => none)

/-- Embedding of `find_best_col_for_target`. -/
def find_best_col_for_target (kws cols : List String) : Option String :=
  match resolvePhase1 kws cols with
  | some c => some c
  | none =>
    match resolvePhase2 kws cols with
    | some c => some c
    | none => resolvePhase3 kws cols

/-! ## rsas.py: merge stage of the 中高危 table -/

/-- Row of the aligned spreadsheet of rsas.py, in the TARGET_COLS shape
(序号, IP, 端口, 漏洞名称, 风险等级, 漏洞说明, 加固建议, CVE); cells are
modelled as strings with the empty string standing for a missing value. -/
structure XRow where
  seq : String
  ip : String
  port : String
  name : String
  risk : String
  desc : String
  fixs : String
  cve : String
deriving DecidableEq, Repr

/-- Pandas cell blankness of `drop_all_empty_rows`: a cell counts only if it
is present and not whitespace-only; a row is blank when no cell counts. -/
def xBlank (r : XRow) : Bool :=
  trimStr r.seq = "" && trimStr r.ip = "" && trimStr r.port = ""
    && trimStr r.name = "" && trimStr r.risk = "" && trimStr r.desc = ""
    && trimStr r.fixs = "" && trimStr r.cve = ""

/-- Embedding of `drop_all_empty_rows`. -/
def drop_all_empty_rows (l : List XRow) : List XRow :=
  l.filter (fun r => !xBlank r)

/-- Renumbering of rsas.py: 序号 := 1..N in order. -/
def renumberX (l : List XRow) : List XRow :=
  (renumberFrom 1 l).map (fun p => { p.2 with seq := toString p.1 })

/-- Sentinel row written when both batches are empty: every TARGET_COLS cell
empty except 风险等级. -/
def sentinelRow : XRow :=
  { seq := "", ip := "", port := "", name := "", risk := "暂未发现中高危漏洞",
    desc := "", fixs := "", cve := "" }

/-- Identity tuple (IP, 端口, 漏洞名称, CVE) of an aligned row, trimmed. -/
def xKey (r : XRow) : String × String × String × String :=
  (trimStr r.ip, trimStr r.port, trimStr r.name, trimStr r.cve)

/-- Embedding of the merge stage of rsas.py main (lines 227–249): both
batches are filtered for all-blank rows; if nothing remains the sentinel row
is emitted and renumbered, otherwise the surviving existing rows and the
surviving new rows are concatenated in that order and renumbered. No
deduplication is performed. -/
def rsasMergeStage (existAligned newFiltered : List XRow) : List XRow :=
  let e := drop_all_empty_rows existAligned
  let n := drop_all_empty_rows newFiltered
  if e.isEmpty && n.isEmpty then renumberX [sentinelRow]
  else renumberX (e ++ n)

/-! ## nessus.py: final medium/high export filter -/

/-- Row of the nessus scan-result table (generate_scan_results column
order). -/
structure NessusRow where
  seq : Nat
  ip : String
  port : String
  name : String
  risk : String
  desc : String
  fixs : String
  cve : String
  output : String
deriving DecidableEq, Repr

/-- Embedding of the final filter of nessus.py main:
`results_df[results_df['风险等级'].isin(['紧急','高''中'])]` — the two
adjacent string literals concatenate to the single token 高中, so the
membership list has exactly the two elements 紧急 and 高中. -/
def nessusHighRiskFilter (rows : List NessusRow) : List NessusRow :=
  rows.filter (fun r => r.risk = "紧急" || r.risk = "高中")

/-! ## Helper lemmas -/

theorem findSome_none {α β : Type} (f : α → Option β) (l : List α) :
    l.findSome? f = none ↔ ∀ a ∈ l, f a = none := by
  induction l with
  | nil => simp [List.findSome?]
  | cons x xs ih =>
    simp only [List.findSome?]
    cases hx : f x with
    | some b => simp [hx]
    | none => simp [hx, ih]

theorem mem_dedupStr (seen l : List String) (x : String) :
    x ∈ dedupStr seen l ↔ x ∈ l ∧ x ∉ seen := by
  induction l generalizing seen with
  | nil => simp [dedupStr]
  | cons y ys ih =>
    simp only [dedupStr]
    split
    · rename_i hy
      rw [ih]
      constructor
      · rintro ⟨h1, h2⟩
        exact ⟨List.mem_cons_of_mem _ h1, h2⟩
      · rintro ⟨h1, h2⟩
        rcases List.mem_cons.mp h1 with rfl | h1
        · exact absurd hy h2
        · exact ⟨h1, h2⟩
    · rename_i hy
      simp only [List.mem_cons, ih, List.mem_cons, not_or]
      constructor
      · rintro (rfl | ⟨h1, h2, h3⟩)
        · exact ⟨Or.inl rfl, hy⟩
        · exact ⟨Or.inr h1, h3⟩
      · rintro ⟨rfl | h1, h2⟩
        · exact Or.inl rfl
        · by_cases hx : x = y
          · exact Or.inl hx
          · exact Or.inr ⟨h1, hx, h2⟩

theorem mem_normsOf (cols : List String) (n : String) :
    n ∈ normsOf cols ↔ ∃ c ∈ cols, normalize c = n := by
  rw [normsOf, mem_dedupStr]
  simp [List.mem_map, eq_comm]

theorem normMapGet_isSome_of_mem (cols : List String) (n : String)
    (h : n ∈ normsOf cols) : normMapGet cols n ≠ none := by
  rw [mem_normsOf] at h
  obtain ⟨c, hc, rfl⟩ := h
  intro hnone
  rw [normMapGet, List.find?_eq_none] at hnone
  exact hnone c (List.mem_reverse.mpr hc) (by simp)

/-! ## C4: ordered severity-normalization rules -/

/-- Claim C4 (confirmed): the severity normalizer applies the ordered,
case-insensitive substring rules — critical/严重/高危/high to 高, else
中高/中危/medium/中 to 中, else low/低 to 低, else info/信息/informational
to 信息, else a standalone numeric 4 or 5 to 高 — and otherwise returns the
token unchanged; in particular "Critical" maps to 高, "中危" maps to 中, and
"foobar" passes through. -/
theorem normalize_risk_ordered_rules :
    normalize_risk "Critical" = "高" ∧
    normalize_risk "中危" = "中" ∧
    normalize_risk "foobar" = "foobar" ∧
    (∀ s : String,
      containsAnyIn (lowerStr (trimStr s)) ["critical", "严重", "高危", "high"] = true →
      normalize_risk s = "高") ∧
    (∀ s : String,
      containsAnyIn (lowerStr (trimStr s)) ["critical", "严重", "高危", "high"] = false →
      containsAnyIn (lowerStr (trimStr s)) ["中高", "中危", "medium", "中"] = true →
      normalize_risk s = "中") ∧
    (∀ s : String,
      containsAnyIn (lowerStr (trimStr s)) ["critical", "严重", "高危", "high"] = false →
      containsAnyIn (lowerStr (trimStr s)) ["中高", "中危", "medium", "中"] = false →
      containsAnyIn (lowerStr (trimStr s)) ["low", "低"] = true →
      normalize_risk s = "低") ∧
    (∀ s : String,
      containsAnyIn (lowerStr (trimStr s)) ["critical", "严重", "高危", "high"] = false →
      containsAnyIn (lowerStr (trimStr s)) ["中高", "中危", "medium", "中"] = false →
      containsAnyIn (lowerStr (trimStr s)) ["low", "低"] = false →
      containsAnyIn (lowerStr (trimStr s)) ["info", "信息", "informational"] = true →
      normalize_risk s = "信息") ∧
    (∀ s : String,
      containsAnyIn (lowerStr (trimStr s)) ["critical", "严重", "高危", "high"] = false →
      containsAnyIn (lowerStr (trimStr s)) ["中高", "中危", "medium", "中"] = false →
      containsAnyIn (lowerStr (trimStr s)) ["low", "低"] = false →
      containsAnyIn (lowerStr (trimStr s)) ["info", "信息", "informational"] = false →
      standalone45 (lowerStr (trimStr s)) = true →
      normalize_risk s = "高") ∧
    (∀ s : String,
      containsAnyIn (lowerStr (trimStr s)) ["critical", "严重", "高危", "high"] = false →
      containsAnyIn (lowerStr (trimStr s)) ["中高", "中危", "medium", "中"] = false →
      containsAnyIn (lowerStr (trimStr s)) ["low", "低"] = false →
      containsAnyIn (lowerStr (trimStr s)) ["info", "信息", "informational"] = false →
      standalone45 (lowerStr (trimStr s)) = false →
      normalize_risk s = s) := by
  refine ⟨by decide, by decide, by decide, ?_, ?_, ?_, ?_, ?_, ?_⟩
  · intro s h1
    have hs : ¬ s = "" := by rintro rfl; exact absurd h1 (by decide)
    simp [normalize_risk, hs, h1]
  · intro s h1 h2
    have hs : ¬ s = "" := by rintro rfl; exact absurd h2 (by decide)
    simp [normalize_risk, hs, h1, h2]
  · intro s h1 h2 h3
    have hs : ¬ s = "" := by rintro rfl; exact absurd h3 (by decide)
    simp [normalize_risk, hs, h1, h2, h3]
  · intro s h1 h2 h3 h4
    have hs : ¬ s = "" := by rintro rfl; exact absurd h4 (by decide)
    simp [normalize_risk, hs, h1, h2, h3, h4]
  · intro s h1 h2 h3 h4 h5
    have hs : ¬ s = "" := by rintro rfl; exact absurd h5 (by decide)
    simp [normalize_risk, hs, h1, h2, h3, h4, h5]
  · intro s h1 h2 h3 h4 h5
    by_cases hs : s = ""
    · subst hs; simp [normalize_risk]
    · simp [normalize_risk, hs, h1, h2, h3, h4, h5]

/-- Witness for C4: the standalone-digit rule at a concrete token whose
hypotheses are discharged by computation. -/
theorem normalize_risk_ordered_rules_witness :
    normalize_risk "risk level: 5" = "高" :=
  normalize_risk_ordered_rules.2.2.2.2.2.2.2.1 "risk level: 5"
    (by decide) (by decide) (by decide) (by decide) (by decide)

/-! ## C5: the text/value cleaner is not idempotent -/

/-- Counterexample for claim C5: cleaning strips whitespace before
bracket/quote characters, so cleaning "[ 'a' ]" leaves " 'a' ", and cleaning
that again yields "a" — a second application changes the result. -/
theorem clean_text_not_idempotent_cex :
    clean_text_list_or_str (.jstr "[ 'a' ]") = " 'a' " ∧
    clean_text_list_or_str
        (.jstr (clean_text_list_or_str (.jstr "[ 'a' ]"))) = "a" ∧
    clean_text_list_or_str
        (.jstr (clean_text_list_or_str (.jstr "[ 'a' ]")))
      ≠ clean_text_list_or_str (.jstr "[ 'a' ]") := by
  refine ⟨by decide, by decide, by decide⟩

/-- Test that a cleaned string is settled: its first and last characters are
neither whitespace nor bracket/quote characters (or it is empty). -/
def settled (t : String) : Bool :=
  (match t.toList.head? with
   | some c => !isWs c && !isBq c
   | none => true) &&
  (match t.toList.getLast? with
   | some c => !isWs c && !isBq c
   | none => true)

theorem dropWhile_eq_self_of_head {p : Char → Bool} {t : List Char}
    (h : ∀ c, t.head? = some c → p c = false) : t.dropWhile p = t := by
  cases t with
  | nil => rfl
  | cons c rest => simp [List.dropWhile_cons, h c rfl]

theorem stripChars_eq_self {p : Char → Bool} {t : List Char}
    (h1 : ∀ c, t.head? = some c → p c = false)
    (h2 : ∀ c, t.getLast? = some c → p c = false) :
    stripChars p t = t := by
  unfold stripChars
  rw [dropWhile_eq_self_of_head h1]
  rw [dropWhile_eq_self_of_head (by
    intro c hc
    rw [List.head?_reverse] at hc
    exact h2 c hc)]
  exact List.reverse_reverse t

theorem asString_toList (s : String) : s.toList.asString = s := rfl

/-- Claim C5 as amended: cleaning is idempotent on every string whose
cleaned form neither starts nor ends with a whitespace or bracket/quote
character; in general the whitespace-then-quote strip order can expose
further strippable characters, so idempotence fails (see the
counterexample). -/
theorem clean_text_idempotent_on_settled (s : String)
    (h : settled (clean_text_list_or_str (.jstr s)) = true) :
    clean_text_list_or_str (.jstr (clean_text_list_or_str (.jstr s)))
      = clean_text_list_or_str (.jstr s) := by
  have hform : ∀ u : String, clean_text_list_or_str (.jstr u) = cleanStr u :=
    fun u => rfl
  rw [hform, hform] at *
  set t := cleanStr s with ht
  rw [settled, Bool.and_eq_true] at h
  have hhead : ∀ c, t.toList.head? = some c → (isWs c || isBq c) = false := by
    intro c hc
    rcases h with ⟨hh, _⟩
    rw [hc] at hh
    simp only [Bool.and_eq_true, Bool.not_eq_true'] at hh
    simp [hh.1, hh.2]
  have hlast : ∀ c, t.toList.getLast? = some c → (isWs c || isBq c) = false := by
    intro c hc
    rcases h with ⟨_, hl⟩
    rw [hc] at hl
    simp only [Bool.and_eq_true, Bool.not_eq_true'] at hl
    simp [hl.1, hl.2]
  have hws : stripChars isWs t.toList = t.toList :=
    stripChars_eq_self
      (fun c hc => by have := hhead c hc; simp only [Bool.or_eq_false_iff] at this; exact this.1)
      (fun c hc => by have := hlast c hc; simp only [Bool.or_eq_false_iff] at this; exact this.1)
  have hbq : stripChars isBq t.toList = t.toList :=
    stripChars_eq_self
      (fun c hc => by have := hhead c hc; simp only [Bool.or_eq_false_iff] at this; exact this.2)
      (fun c hc => by have := hlast c hc; simp only [Bool.or_eq_false_iff] at this; exact this.2)
  show (stripChars isBq (stripChars isWs t.toList)).asString = t
  rw [hws, hbq, asString_toList]

/-- Witness for the amended C5 at a concrete settled input. -/
theorem clean_text_idempotent_on_settled_witness :
    settled (clean_text_list_or_str (.jstr " [x'y] ")) = true ∧
    clean_text_list_or_str
        (.jstr (clean_text_list_or_str (.jstr " [x'y] ")))
      = clean_text_list_or_str (.jstr " [x'y] ") :=
  ⟨by decide, clean_text_idempotent_on_settled " [x'y] " (by decide)⟩

/-! ## C10: nessus medium/high export filter -/

/-- Nessus result row with only the risk level populated, for the concrete
part of C10. -/
def nessusRowOf (risk : String) : NessusRow :=
  ⟨0, "", "", "", risk, "", "", "", ""⟩

/-- Claim C10 (confirmed): the final nessus export retains exactly the rows
whose risk level is 紧急 or the literal concatenation 高中 (the Python list
['紧急','高''中'] has two elements); rows at 高 or 中 are excluded. -/
theorem nessus_high_risk_filter_membership :
    (∀ (rows : List NessusRow) (r : NessusRow),
      r ∈ nessusHighRiskFilter rows ↔
        r ∈ rows ∧ (r.risk = "紧急" ∨ r.risk = "高中")) ∧
    nessusHighRiskFilter
        [nessusRowOf "高", nessusRowOf "中", nessusRowOf "紧急",
         nessusRowOf "高中", nessusRowOf "低"]
      = [nessusRowOf "紧急", nessusRowOf "高中"] := by
  constructor
  · intro rows r
    simp [nessusHighRiskFilter, List.mem_filter]
  · decide

/-! ## C7: sentinel on two empty batches -/

/-- Claim C7 (confirmed): when every row of the existing persisted batch and
of the newly extracted batch is blank (no non-blank cell), the merge stage
emits exactly one sentinel row whose 风险等级 is the fixed no-findings
marker, with 序号 = 1 and every other cell empty. -/
theorem merge_empty_batches_sentinel (exist new : List XRow)
    (he : ∀ r ∈ exist, xBlank r = true) (hn : ∀ r ∈ new, xBlank r = true) :
    rsasMergeStage exist new = [{ sentinelRow with seq := "1" }] ∧
    sentinelRow.risk = "暂未发现中高危漏洞" ∧ sentinelRow.ip = "" ∧
    sentinelRow.port = "" ∧ sentinelRow.name = "" ∧ sentinelRow.desc = "" ∧
    sentinelRow.fixs = "" ∧ sentinelRow.cve = "" := by
  have hfe : drop_all_empty_rows exist = [] := by
    rw [drop_all_empty_rows, List.filter_eq_nil]
    intro r hr
    simp [he r hr]
  have hfn : drop_all_empty_rows new = [] := by
    rw [drop_all_empty_rows, List.filter_eq_nil]
    intro r hr
    simp [hn r hr]
  refine ⟨?_, rfl, rfl, rfl, rfl, rfl, rfl, rfl⟩
  rw [rsasMergeStage]
  simp only [hfe, hfn]
  rfl

/-- Witness for C7: one blank existing row (whitespace cells only), an empty
new batch. -/
theorem merge_empty_batches_sentinel_witness :
    rsasMergeStage [⟨" ", "", "", "  ", "", "", "", ""⟩] []
      = [{ sentinelRow with seq := "1" }] :=
  (merge_empty_batches_sentinel [⟨" ", "", "", "  ", "", "", "", ""⟩] []
    (by decide) (by simp)).1

/-! ## C1: the persisted-batch merge keeps duplicate identities -/

def dupRowA : XRow :=
  ⟨"1", "10.0.0.1", "22", "OpenSSH weak cipher", "高", "descA", "", "CVE-2023-1111"⟩

def dupRowB : XRow :=
  ⟨"1", "10.0.0.1", "22", "OpenSSH weak cipher", "高", "descB", "", "CVE-2023-1111"⟩

/-- Counterexample for claim C1: the merge of an existing persisted batch
with a newly extracted batch (rsas.py main) concatenates and renumbers
without any deduplication, so two records sharing the identity tuple
("10.0.0.1","22","OpenSSH weak cipher","CVE-2023-1111") both survive — the
output does not contain exactly one record per identity tuple. -/
theorem rsas_merge_keeps_duplicate_identity :
    xKey dupRowA = xKey dupRowB ∧
    (rsasMergeStage [dupRowA] [dupRowB]).length = 2 ∧
    (rsasMergeStage [dupRowA] [dupRowB]).map xKey
      = [xKey dupRowA, xKey dupRowA] := by
  refine ⟨by decide, by decide, by decide⟩

theorem renumberFrom_map_snd {α : Type} (i : Nat) (l : List α) :
    (renumberFrom i l).map Prod.snd = l := by
  induction l generalizing i with
  | nil => rfl
  | cons x xs ih => simp [renumberFrom, ih]

theorem renumberFrom_length {α : Type} (i : Nat) (l : List α) :
    (renumberFrom i l).length = l.length := by
  induction l generalizing i with
  | nil => rfl
  | cons x xs ih => simp [renumberFrom, ih]

theorem renumberFrom_map_fst {α : Type} (i : Nat) (l : List α) :
    (renumberFrom i l).map Prod.fst = List.range' i l.length := by
  induction l generalizing i with
  | nil => rfl
  | cons x xs ih => simp [renumberFrom, ih, List.range'_succ]

theorem mem_of_mem_renumberFrom {α : Type} {i : Nat} {l : List α}
    {p : Nat × α} (h : p ∈ renumberFrom i l) : p.2 ∈ l := by
  have := List.mem_map_of_mem Prod.snd h
  rwa [renumberFrom_map_snd] at this

theorem renumberFrom_mem_of_mem {α : Type} {l : List α} {x : α} (i : Nat)
    (h : x ∈ l) : ∃ n, (n, x) ∈ renumberFrom i l := by
  induction l generalizing i with
  | nil => cases h
  | cons y ys ih =>
    rcases List.mem_cons.mp h with rfl | h
    · exact ⟨i, List.mem_cons_self _ _⟩
    · obtain ⟨n, hn⟩ := ih (i + 1) h
      exact ⟨n, List.mem_cons_of_mem _ hn⟩

theorem dedupVulns_mem_split (seen : List (String × String × String × String))
    (rs : List NRec) :
    ∀ x ∈ dedupVulns seen rs,
      vulnKey x ∉ seen ∧
        ∃ l1 l2, rs = l1 ++ x :: l2 ∧ ∀ r ∈ l1, vulnKey r ≠ vulnKey x := by
  induction rs generalizing seen with
  | nil => intro x hx; cases hx
  | cons r rs ih =>
    intro x hx
    rw [dedupVulns] at hx
    split at hx
    · rename_i hseen
      obtain ⟨h1, l1, l2, rfl, h2⟩ := ih seen x hx
      refine ⟨h1, r :: l1, l2, rfl, ?_⟩
      intro y hy
      rcases List.mem_cons.mp hy with rfl | hy
      · intro hk; rw [hk] at hseen; exact h1 hseen
      · exact h2 y hy
    · rename_i hseen
      rcases List.mem_cons.mp hx with rfl | hx
      · exact ⟨hseen, [], rs, rfl, by intro y hy; cases hy⟩
      · obtain ⟨h1, l1, l2, rfl, h2⟩ := ih _ x hx
        have hne : vulnKey x ≠ vulnKey r := by
          intro hk
          exact h1 (by rw [hk]; exact List.mem_cons_self _ _)
        refine ⟨fun hc => h1 (List.mem_cons_of_mem _ hc), r :: l1, l2, rfl, ?_⟩
        intro y hy
        rcases List.mem_cons.mp hy with rfl | hy
        · exact fun hk => hne (hk.symm)
        · exact h2 y hy

theorem dedupVulns_keys_nodup (seen : List (String × String × String × String))
    (rs : List NRec) : ((dedupVulns seen rs).map vulnKey).Nodup := by
  induction rs generalizing seen with
  | nil => simp [dedupVulns]
  | cons r rs ih =>
    rw [dedupVulns]
    split
    · exact ih seen
    · simp only [List.map_cons, List.nodup_cons]
      refine ⟨?_, ih _⟩
      intro hmem
      obtain ⟨x, hx, hkx⟩ := List.mem_map.mp hmem
      have := (dedupVulns_mem_split _ _ x hx).1
      exact this (by rw [hkx]; exact List.mem_cons_self _ _)

theorem dedupVulns_covers (seen : List (String × String × String × String))
    (rs : List NRec) :
    ∀ r ∈ rs, vulnKey r ∈ seen ∨
      ∃ x ∈ dedupVulns seen rs, vulnKey x = vulnKey r := by
  induction rs generalizing seen with
  | nil => intro r hr; cases hr
  | cons y ys ih =>
    intro r hr
    rw [dedupVulns]
    rcases List.mem_cons.mp hr with rfl | hr
    · split
      · rename_i h; exact Or.inl h
      · exact Or.inr ⟨r, List.mem_cons_self _ _, rfl⟩
    · split
      · rename_i h
        rcases ih seen r hr with h1 | ⟨x, hx, hkx⟩
        · exact Or.inl h1
        · exact Or.inr ⟨x, hx, hkx⟩
      · rename_i h
        rcases ih (vulnKey y :: seen) r hr with h1 | ⟨x, hx, hkx⟩
        · rcases List.mem_cons.mp h1 with h2 | h2
          · exact Or.inr ⟨y, List.mem_cons_self _ _, h2.symm⟩
          · exact Or.inl h2
        · exact Or.inr ⟨x, List.mem_cons_of_mem _ hx, hkx⟩

/-- Claim C1 as amended: the first-occurrence deduplication over the
identity tuple (ip, port, name, cve), with sequence numbers 1..N assigned in
surviving order, is performed by merge_vulns over the records of one
extraction run; the merge of the persisted batch with the new batch
(rsas.py) concatenates the non-blank rows of both and renumbers them without
deduplication (see the counterexample). This theorem states the merge_vulns
half: output identity keys are pairwise distinct, every input identity is
represented, each surviving record is the first input record of its
identity (field content untouched), and the sequence column is 1..N in
order. -/
theorem merge_vulns_first_occurrence_dedup (rs : List NRec) :
    ((merge_vulns rs).map (fun p => vulnKey p.2)).Nodup ∧
    (∀ r ∈ rs, ∃ p ∈ merge_vulns rs, vulnKey p.2 = vulnKey r) ∧
    (∀ p ∈ merge_vulns rs,
      ∃ l1 l2, rs = l1 ++ p.2 :: l2 ∧ ∀ r ∈ l1, vulnKey r ≠ vulnKey p.2) ∧
    (merge_vulns rs).map Prod.fst = List.range' 1 (merge_vulns rs).length := by
  refine ⟨?_, ?_, ?_, ?_⟩
  · have : (merge_vulns rs).map (fun p => vulnKey p.2)
        = (dedupVulns [] rs).map vulnKey := by
      rw [merge_vulns]
      rw [show (fun p : Nat × NRec => vulnKey p.2) = vulnKey ∘ Prod.snd from rfl]
      rw [← List.map_map, renumberFrom_map_snd]
    rw [this]
    exact dedupVulns_keys_nodup [] rs
  · intro r hr
    rcases dedupVulns_covers [] rs r hr with h | ⟨x, hx, hkx⟩
    · cases h
    · obtain ⟨n, hn⟩ := renumberFrom_mem_of_mem 1 hx
      exact ⟨(n, x), hn, hkx⟩
  · intro p hp
    exact (dedupVulns_mem_split [] rs p.2 (mem_of_mem_renumberFrom hp)).2
  · rw [merge_vulns, renumberFrom_map_fst, renumberFrom_length]

/-! ## C9: the salvage pass never overwrites -/

/-- Key condition under which `normalize_record` reaches the salvage branch:
the lowered, stripped key matches none of the specific alias families and
does not contain "cve". -/
def salvageApplies (k : String) : Prop :=
  lowerStr (trimStr k) ∉ ipRecKeys ∧ lowerStr (trimStr k) ∉ portRecKeys ∧
  lowerStr (trimStr k) ∉ nameRecKeys ∧ lowerStr (trimStr k) ∉ riskRecKeys ∧
  lowerStr (trimStr k) ∉ descRecKeys ∧ lowerStr (trimStr k) ∉ fixRecKeys ∧
  strContains (lowerStr (trimStr k)) "cve" = false

instance (k : String) : Decidable (salvageApplies k) := by
  unfold salvageApplies
  infer_instance

/-- Claim C9 (confirmed): for a key handled by the salvage pass, the
CVE, severity and description fields are filled only when still empty (the
description only from cleaned values longer than ten characters) and a field
already set by an earlier, more specific rule is never overwritten; the
other four fields are untouched by the salvage pass. -/
theorem salvage_pass_no_overwrite (o : NRec) (k : String) (v : JVal)
    (h : salvageApplies k) :
    (nstep o (k, v)).ip = o.ip ∧ (nstep o (k, v)).port = o.port ∧
    (nstep o (k, v)).name = o.name ∧ (nstep o (k, v)).fixs = o.fixs ∧
    (o.cve ≠ "" → (nstep o (k, v)).cve = o.cve) ∧
    (o.risk ≠ "" → (nstep o (k, v)).risk = o.risk) ∧
    (o.desc ≠ "" → (nstep o (k, v)).desc = o.desc) ∧
    ((nstep o (k, v)).desc ≠ o.desc →
      o.desc = "" ∧ 10 < (clean_text_list_or_str v).length ∧
      (nstep o (k, v)).desc = clean_text_list_or_str v) := by
  obtain ⟨h1, h2, h3, h4, h5, h6, h7⟩ := h
  by_cases hv : isNull v
  · simp [nstep, hv]
  · simp only [nstep, hv, Bool.false_eq_true, if_false, if_neg h1, if_neg h2,
      if_neg h3, if_neg h4, if_neg h5, if_neg h6, h7, Bool.true_eq_false]
    rcases hcve : cveSearch (clean_text_list_or_str v) with _ | m <;>
    rcases hsev : sevSearch (clean_text_list_or_str v) with _ | g <;>
    by_cases hc : o.cve = "" <;>
    by_cases hrk : o.risk = "" <;>
    by_cases hd : o.desc = "" <;>
    (try split_ifs with hlen) <;>
    simp_all

/-- Witness for C9 at a concrete record with all three salvage targets
already set: the salvage key changes nothing. -/
theorem salvage_pass_no_overwrite_witness :
    (nstep ⟨"1.2.3.4", "80", "n", "高", "d", "f", "CVE-2020-0001"⟩
        ("extra_note", .jstr "contains cve_2021_9999 and 高危 text")).cve
      = "CVE-2020-0001" ∧
    (nstep ⟨"1.2.3.4", "80", "n", "高", "d", "f", "CVE-2020-0001"⟩
        ("extra_note", .jstr "contains cve_2021_9999 and 高危 text")).risk
      = "高" ∧
    (nstep ⟨"1.2.3.4", "80", "n", "高", "d", "f", "CVE-2020-0001"⟩
        ("extra_note", .jstr "contains cve_2021_9999 and 高危 text")).desc
      = "d" := by
  have h := salvage_pass_no_overwrite
    ⟨"1.2.3.4", "80", "n", "高", "d", "f", "CVE-2020-0001"⟩
    "extra_note" (.jstr "contains cve_2021_9999 and 高危 text") (by decide)
  exact ⟨h.2.2.2.2.1 (by decide), h.2.2.2.2.2.1 (by decide),
    h.2.2.2.2.2.2.1 (by decide)⟩

/-! ## C6: port-row against vulnerability-row classification -/

theorem foldl_ipPortStep_fst_some (row : List (String × String))
    (init : Option String × Option String)
    (h : (∃ p ∈ row, (ipSearch p.2).isSome = true) ∨ init.1.isSome = true) :
    ((row.foldl ipPortStep init).1).isSome = true := by
  induction row generalizing init with
  | nil =>
    rcases h with ⟨p, hp, _⟩ | h
    · cases hp
    · simpa using h
  | cons q rest ih =>
    rw [List.foldl_cons]
    rcases h with ⟨p, hp, hps⟩ | hinit
    · rcases List.mem_cons.mp hp with rfl | hp'
      · refine ih _ (Or.inr ?_)
        obtain ⟨g, hg⟩ := Option.isSome_iff_exists.mp hps
        simp [ipPortStep, hg]
      · exact ih _ (Or.inl ⟨p, hp', hps⟩)
    · refine ih _ (Or.inr ?_)
      rw [ipPortStep]
      rcases hq : ipSearch q.2 with _ | g
      · simpa using hinit
      · simp

theorem foldl_ipPortStep_snd_some (row : List (String × String))
    (init : Option String × Option String)
    (h : (∃ p ∈ row, digits1to5 p.2 = true) ∨ init.2.isSome = true) :
    ((row.foldl ipPortStep init).2).isSome = true := by
  induction row generalizing init with
  | nil =>
    rcases h with ⟨p, hp, _⟩ | h
    · cases hp
    · simpa using h
  | cons q rest ih =>
    rw [List.foldl_cons]
    rcases h with ⟨p, hp, hps⟩ | hinit
    · rcases List.mem_cons.mp hp with rfl | hp'
      · exact ih _ (Or.inr (by simp [ipPortStep, hps]))
      · exact ih _ (Or.inl ⟨p, hp', hps⟩)
    · refine ih _ (Or.inr ?_)
      rw [ipPortStep]
      by_cases hq : digits1to5 q.2 <;> simp [hq, hinit]

/-- Claim C6 as amended: a row with an IP-shaped cell and a pure-digit cell
and no vulnerability-indicating key yields exactly its (ip, port) pair and no
vulnerability record; a row with a vulnerability-indicating key is processed
by the vulnerability branch, is never emitted as a port pair, and is emitted
as a vulnerability record precisely when one of name, description, CVE or
severity is non-empty after extraction (e.g. a non-empty name column). -/
theorem port_vuln_row_classification (hn : List String) (cols : List String)
    (hc : cols ≠ []) :
    (rowHasIp (mkRow hn cols) = true → rowHasPort (mkRow hn cols) = true →
      rowHasVulnKeys (mkRow hn cols) = false →
      ∃ ip port, rowIpPort (mkRow hn cols) = (some ip, some port) ∧
        processRow hn cols = ([], [(ip, port)])) ∧
    (rowHasVulnKeys (mkRow hn cols) = true →
      processRow hn cols =
        (if vrRetained (buildVr (mkRow hn cols) cols) = true then
          [buildVr (mkRow hn cols) cols] else [], [])) := by
  obtain ⟨c0, cs, rfl⟩ : ∃ c0 cs, cols = c0 :: cs := by
    cases cols with
    | nil => exact absurd rfl hc
    | cons c0 cs => exact ⟨c0, cs, rfl⟩
  constructor
  · intro h1 h2 h3
    have hfst : ((rowIpPort (mkRow hn (c0 :: cs))).1).isSome = true := by
      refine foldl_ipPortStep_fst_some _ _ (Or.inl ?_)
      rw [rowHasIp, List.any_eq_true] at h1
      obtain ⟨p, hp, hps⟩ := h1
      exact ⟨p, hp, by simpa using hps⟩
    have hsnd : ((rowIpPort (mkRow hn (c0 :: cs))).2).isSome = true := by
      refine foldl_ipPortStep_snd_some _ _ (Or.inl ?_)
      rw [rowHasPort, List.any_eq_true] at h2
      exact h2
    obtain ⟨ip, hip⟩ := Option.isSome_iff_exists.mp hfst
    obtain ⟨port, hport⟩ := Option.isSome_iff_exists.mp hsnd
    refine ⟨ip, port, ?_, ?_⟩
    · rw [← hip, ← hport]
    · rw [processRow]
      simp only [List.isEmpty_cons, Bool.false_eq_true, if_false]
      rw [if_pos (by simp [h1, h2, h3])]
      rw [show rowIpPort (mkRow hn (c0 :: cs)) = (some ip, some port) from by
        rw [← hip, ← hport]]
  · intro h
    rw [processRow]
    simp only [List.isEmpty_cons, Bool.false_eq_true, if_false]
    rw [if_neg (by simp [h])]

/-- Witness for C6: the two concrete rows of the claim — an ip/port row with
no vulnerability key classifies as a port pair, the same row with a name
column runs the vulnerability branch, is retained and yields no port pair. -/
theorem port_vuln_row_classification_witness :
    (∃ ip port,
      rowIpPort (mkRow ["ip", "port"] ["192.168.1.5", "443"])
          = (some ip, some port) ∧
        processRow ["ip", "port"] ["192.168.1.5", "443"] = ([], [(ip, port)])) ∧
    processRow ["ip", "port", "name"] ["192.168.1.5", "443", "Weak TLS"]
      = (if vrRetained (buildVr
            (mkRow ["ip", "port", "name"] ["192.168.1.5", "443", "Weak TLS"])
            ["192.168.1.5", "443", "Weak TLS"]) = true then
          [buildVr (mkRow ["ip", "port", "name"] ["192.168.1.5", "443", "Weak TLS"])
            ["192.168.1.5", "443", "Weak TLS"]] else [], []) :=
  ⟨(port_vuln_row_classification ["ip", "port"] ["192.168.1.5", "443"]
      (by decide)).1 (by decide) (by decide) (by decide),
   (port_vuln_row_classification ["ip", "port", "name"]
      ["192.168.1.5", "443", "Weak TLS"] (by decide)).2 (by decide)⟩

/-- Table of the C6 counterexample: the remediation column is a
vulnerability-indicating key, yet the row is dropped entirely (no
vulnerability record, no port pair), because name, description, CVE and
severity are all empty after extraction. -/
def fixOnlyTable : HTable :=
  ⟨["加固建议", "主机", "端口"],
   [["加固建议", "主机", "端口"], ["please patch now", "1.2.3.4", "80"]]⟩

/-- Counterexample for claim C6: a row with a vulnerability-indicating key
(the remediation column) is not emitted as a vulnerability record. -/
theorem port_vuln_row_classification_cex :
    rowHasVulnKeys
        (mkRow (["加固建议", "主机", "端口"].map normalize_key)
          ["please patch now", "1.2.3.4", "80"]) = true ∧
    extract_from_table fixOnlyTable = ([], []) := by
  refine ⟨by decide, by decide⟩

/-! ## C8: CVE extraction and the full-row fallback -/

theorem foldl_vstep_cve_preserved (row : List (String × String)) (vr : NRec)
    (h : ∀ p ∈ row, p.1 ≠ "cve") : (row.foldl vstep vr).cve = vr.cve := by
  induction row generalizing vr with
  | nil => rfl
  | cons q rest ih =>
    rw [List.foldl_cons]
    rw [ih _ (fun p hp => h p (List.mem_cons_of_mem _ hp))]
    have hq : q.1 ≠ "cve" := h q (List.mem_cons_self _ _)
    rw [vstep]
    split_ifs with h1 h2 h3 h4 h5 h6 h7 <;> simp_all

/-- Table of the C8 fallback instance: no CVE column resolves, the CVE
pattern sits in an unrelated cell, and the full-row re-scan canonicalizes
it. -/
def cveFallbackTable : HTable :=
  ⟨["漏洞名称", "备注"], [["漏洞名称", "备注"], ["X漏洞", "详情 cve_2023_4567"]]⟩

/-- Claim C8 as amended: the CVE field of a table row is the uppercased,
hyphenated canonical form of the match when the CVE column's own value
contains the pattern, and, when no CVE key is present in the row, the full
row text is re-scanned once and the canonical form of its first match is
used (empty if none); a non-empty CVE column value without the pattern is
kept verbatim and suppresses the fallback (see the counterexample). -/
theorem cve_extraction_characterization :
    (∀ (vr : NRec) (cell m : String), vr.cve = "" →
      cveSearch (cleanStr cell) = some m →
      (vstep vr ("cve", cell)).cve = canonCve m) ∧
    (∀ (row : List (String × String)) (cols : List String),
      (∀ p ∈ row, p.1 ≠ "cve") →
      (buildVr row cols).cve = ((cveSearch (joinSp cols)).map canonCve).getD "") ∧
    (extract_from_table cveFallbackTable).1.map (fun v => v.cve)
      = ["CVE-2023-4567"] := by
  refine ⟨?_, ?_, by decide⟩
  · intro vr cell m hvc hm
    rw [vstep]
    simp only [hvc, hm]
    simp [(by decide : ¬("cve" = "ip")), (by decide : ¬("cve" = "port")),
      (by decide : ¬("cve" = "name")), (by decide : ¬("cve" = "risk")),
      (by decide : ¬("cve" = "desc")), (by decide : ¬("cve" = "fix"))]
  · intro row cols h
    rw [buildVr, foldl_vstep_cve_preserved row emptyVR h]
    rw [show emptyVR.cve = "" from rfl]
    simp only [if_pos rfl]
    rcases hs : cveSearch (joinSp cols) with _ | m
    · simp [foldl_vstep_cve_preserved row emptyVR h]
      rfl
    · simp

/-- Witness for C8 at concrete inputs: a CVE cell with an underscored match
is canonicalized, and a row without a CVE key uses the fallback scan of the
joined cells. -/
theorem cve_extraction_characterization_witness :
    (vstep emptyNRec ("cve", "see cve_2019_0708")).cve = canonCve "cve_2019_0708" ∧
    (buildVr [("name", "X")] ["X", "ref CVE-2021-44228"]).cve
      = ((cveSearch (joinSp ["X", "ref CVE-2021-44228"])).map canonCve).getD "" :=
  ⟨cve_extraction_characterization.1 emptyNRec "see cve_2019_0708"
      "cve_2019_0708" (by decide) (by decide),
   cve_extraction_characterization.2.1 [("name", "X")]
      ["X", "ref CVE-2021-44228"] (by decide)⟩

/-- Table of the C8 counterexample: the CVE column holds 无, the description
holds a CVE pattern. -/
def cveSuppressedTable : HTable :=
  ⟨["CVE编号", "漏洞说明"], [["CVE编号", "漏洞说明"], ["无", "参见 cve_2023_4567 漏洞"]]⟩

/-- Counterexample for claim C8: the row text contains the CVE pattern
cve_2023_4567, yet the extracted CVE field is the verbatim column value 无,
not the canonical CVE-2023-4567 — the non-matching CVE column value
suppresses the fallback re-scan. -/
theorem cve_fallback_suppressed_cex :
    (cveSearch "无 参见 cve_2023_4567 漏洞").map canonCve = some "CVE-2023-4567" ∧
    (extract_from_table cveSuppressedTable).1.map (fun v => v.cve) = ["无"] := by
  refine ⟨by decide, by decide⟩

/-! ## C3: the column resolver -/

set_option maxRecDepth 4000

theorem resolvePhase1_none (kws cols : List String) :
    resolvePhase1 kws cols = none ↔
      ∀ kw ∈ kws, ∀ c ∈ cols, normalize c ≠ normalize kw := by
  rw [resolvePhase1, findSome_none]
  refine forall₂_congr (fun kw _ => ?_)
  rw [normMapGet, List.find?_eq_none]
  constructor
  · intro h c hc
    have := h c (List.mem_reverse.mpr hc)
    simpa using this
  · intro h c hc
    have := h c (List.mem_reverse.mp hc)
    simpa using this

theorem resolvePhase2_none (kws cols : List String) :
    resolvePhase2 kws cols = none ↔
      ∀ kw ∈ kws, normalize kw = "" ∨
        ∀ c ∈ cols, strContains (normalize c) (normalize kw) = false := by
  rw [resolvePhase2, findSome_none]
  refine forall₂_congr (fun kw _ => ?_)
  by_cases hk : normalize kw = ""
  · simp [hk]
  · simp only [hk, if_false, false_or]
    rw [findSome_none]
    constructor
    · intro h c hc
      have := h (normalize c) (mem_normsOf cols (normalize c) |>.mpr ⟨c, hc, rfl⟩)
      by_cases hsub : strContains (normalize c) (normalize kw) = true
      · rw [if_pos hsub] at this
        exact absurd this (normMapGet_isSome_of_mem cols (normalize c)
          ((mem_normsOf cols (normalize c)).mpr ⟨c, hc, rfl⟩))
      · simpa using hsub
    · intro h n hn
      obtain ⟨c, hc, rfl⟩ := (mem_normsOf cols n).mp hn
      rw [h c hc]
      simp

theorem getCloseMatches1_eq_none (w : String) (poss : List String) :
    getCloseMatches1 w poss = none ↔ ∀ x ∈ poss, ratioQ x w < mkRat 3 5 := by
  rw [getCloseMatches1]
  rcases hf : poss.filter (fun x => decide (mkRat 3 5 ≤ ratioQ x w)) with _ | ⟨h, t⟩
  · simp only [true_iff]
    intro x hx
    have := List.filter_eq_nil.mp hf x hx
    simp only [decide_eq_true_eq] at this
    exact lt_of_not_le this
  · simp only [reduceCtorEq, false_iff, not_forall]
    have hh : h ∈ poss.filter (fun x => decide (mkRat 3 5 ≤ ratioQ x w)) := by
      rw [hf]; exact List.mem_cons_self _ _
    have := List.mem_filter.mp hh
    refine ⟨h, this.1, ?_⟩
    have h2 := this.2
    simp only [decide_eq_true_eq] at h2
    exact not_lt.mpr h2

theorem getCloseMatches1_mem {w : String} {poss : List String} {n : String}
    (h : getCloseMatches1 w poss = some n) : n ∈ poss := by
  rw [getCloseMatches1] at h
  rcases hf : poss.filter (fun x => decide (mkRat 3 5 ≤ ratioQ x w)) with _ | ⟨x, t⟩
  · rw [hf] at h; cases h
  · rw [hf] at h
    simp only [Option.some.injEq] at h
    have hc := foldl_choice
      (fun best y =>
        if ratioQ best w < ratioQ y w
            || (ratioQ y w = ratioQ best w && strGtB y best) then y
        else best)
      (by
        intro a b
        by_cases hab : (ratioQ a w < ratioQ b w
            || (ratioQ b w = ratioQ a w && strGtB b a)) = true
        · right; simp [hab]
        · left; simp [hab]) x t
    have hmem : n = x ∨ n ∈ t := by
      rcases hc with h1 | h1
      · left; rw [← h, h1]
      · right; rw [← h]; exact h1
    have : n ∈ poss.filter (fun x => decide (mkRat 3 5 ≤ ratioQ x w)) := by
      rw [hf]
      rcases hmem with rfl | hm
      · exact List.mem_cons_self _ _
      · exact List.mem_cons_of_mem _ hm
    exact (List.mem_filter.mp this).1

theorem resolvePhase3_none (kws cols : List String) :
    resolvePhase3 kws cols = none ↔
      ∀ kw ∈ kws, ∀ c ∈ cols, ratioQ (normalize c) (normalize kw) < mkRat 3 5 := by
  rw [resolvePhase3, findSome_none]
  refine forall₂_congr (fun kw _ => ?_)
  constructor
  · intro h c hc
    rcases hg : getCloseMatches1 (normalize kw) (normsOf cols) with _ | n
    · rw [getCloseMatches1_eq_none] at hg
      exact hg (normalize c) ((mem_normsOf cols (normalize c)).mpr ⟨c, hc, rfl⟩)
    · rw [hg] at h
      exact absurd h (normMapGet_isSome_of_mem cols n
        (getCloseMatches1_mem hg))
  · intro h
    have hg : getCloseMatches1 (normalize kw) (normsOf cols) = none := by
      rw [getCloseMatches1_eq_none]
      intro n hn
      obtain ⟨c, hc, rfl⟩ := (mem_normsOf cols n).mp hn
      exact h c hc
    rw [hg]

/-- Candidate aliases of the target CVE in rsas.py. -/
def cveCands : List String := ["CVE", "漏洞CVE编号", "CVE编号", "cve id", "漏洞CVE"]

/-- Candidate aliases of the target 漏洞名称 in rsas.py. -/
def nameCands : List String :=
  ["漏洞名称", "名称", "漏洞", "vuln name", "vulnerability name"]

/-- Claim C3 as amended: the resolver applies, in order, exact match on
normalized names, then substring match succeeding exactly when a non-empty
normalized alias is a substring of a normalized observed column (not the
converse direction), then the edit-distance ratio match at cutoff 0.6, else
none; resolving target CVE against 漏洞CVE编号/IP地址/端口 returns
漏洞CVE编号 and resolving against vuln_id returns none. The iff characterizes
exactly when the resolver returns none. -/
theorem resolver_phase_characterization :
    find_best_col_for_target cveCands ["漏洞CVE编号", "IP地址", "端口"]
      = some "漏洞CVE编号" ∧
    find_best_col_for_target cveCands ["vuln_id"] = none ∧
    ∀ kws cols : List String,
      (find_best_col_for_target kws cols = none ↔
        (∀ kw ∈ kws, ∀ c ∈ cols, normalize c ≠ normalize kw) ∧
        (∀ kw ∈ kws, normalize kw = "" ∨
          ∀ c ∈ cols, strContains (normalize c) (normalize kw) = false) ∧
        (∀ kw ∈ kws, ∀ c ∈ cols, ratioQ (normalize c) (normalize kw) < mkRat 3 5)) := by
  refine ⟨by decide, by decide, ?_⟩
  intro kws cols
  rw [find_best_col_for_target]
  rcases h1 : resolvePhase1 kws cols with _ | c1
  · rcases h2 : resolvePhase2 kws cols with _ | c2
    · rcases h3 : resolvePhase3 kws cols with _ | c3
      · simp only [true_iff]
        exact ⟨(resolvePhase1_none kws cols).mp h1,
          (resolvePhase2_none kws cols).mp h2,
          (resolvePhase3_none kws cols).mp h3⟩
      · simp only [reduceCtorEq, false_iff]
        intro ⟨_, _, hc⟩
        rw [← resolvePhase3_none kws cols] at hc
        rw [h3] at hc
        cases hc
    · simp only [reduceCtorEq, false_iff]
      intro ⟨_, hc, _⟩
      rw [← resolvePhase2_none kws cols] at hc
      rw [h2] at hc
      cases hc
  · simp only [reduceCtorEq, false_iff]
    intro ⟨hc, _, _⟩
    rw [← resolvePhase1_none kws cols] at hc
    rw [h1] at hc
    cases hc

/-- Modelled from the claim text (spec §4.3 step 3): a substring phase that
accepts when the normalized alias is a substring of, or contains, the
normalized observed column; the other phases are those of the code. -/
def resolvePhase2Claim (kws cols : List String) : Option String :=
  kws.findSome? (fun kw =>
    let nk := normalize kw
    (normsOf cols).findSome? (fun n =>
      if strContains n nk || strContains nk n then normMapGet cols n
      else none))

/-- Modelled from the claim text: the resolver the claim describes, with the
two-directional substring phase. -/
def find_best_col_claim (kws cols : List String) : Option String :=
  match resolvePhase1 kws cols with
  | some c => some c
  | none =>
    match resolvePhase2Claim kws cols with
    | some c => some c
    | none => resolvePhase3 kws cols

/-- Counterexample for claim C3: for target 漏洞名称 and the observed
column erab (a substring of the normalized alias vulnerability name), the
resolver the claim describes returns erab through its contains direction,
but the code checks only the alias-inside-column direction and its fuzzy
phase stays below 0.6, so it returns none. -/
theorem resolver_substring_direction_cex :
    strContains (normalize "vulnerability name") (normalize "erab") = true ∧
    find_best_col_claim nameCands ["erab"] = some "erab" ∧
    find_best_col_for_target nameCands ["erab"] = none := by
  refine ⟨by decide, by decide, by decide⟩

/-! ## C2: the strategy-A short-circuit of the cascade -/

/-- Claim C2 as amended: strategy A short-circuits strategies B and C
whenever the embedded-object parse succeeds — even when it collects zero
vulnerability items — returning exactly its own (possibly empty) results;
strategies B and C both run, with outputs unioned, exactly when no parse
succeeded. -/
theorem cascade_branch_characterization (d : Doc) :
    (∀ (p : JVal) vs ps, d.parsed = some p → strategyA p = .ok (vs, ps) →
      parse_html_file d = .ok (vs.map normalize_record, ps)) ∧
    (d.parsed = none → parse_html_file d = .ok (fallbackResult d)) := by
  constructor
  · intro p vs ps hp hsa
    have h1 : parse_html_file d = stratAResult p := by
      rw [parse_html_file, hp]
    rw [h1]
    unfold stratAResult
    rw [hsa]
    rfl
  · intro hp
    rw [parse_html_file, hp]

/-- Document of the C2 witness and counterexample: the marker parse succeeds
on an object with no item containers, while a table holds one retained
vulnerability row. -/
def zeroItemDoc : Doc :=
  ⟨some (.jobj []), [⟨["漏洞名称"], [["漏洞名称"], ["SQL注入漏洞"]]⟩], []⟩

/-- Witness for the amended C2 at the concrete document: strategy A parsed
but collected nothing, and the cascade returns empty results. -/
theorem cascade_branch_characterization_witness :
    parse_html_file zeroItemDoc = .ok ([], []) :=
  (cascade_branch_characterization zeroItemDoc).1 (.jobj []) [] [] rfl rfl

/-- Counterexample for claim C2: on `zeroItemDoc` strategy A finds the
marker, parses successfully and collects zero vulnerability items, and the
claim asserts the cascade then falls through to strategies B and C — whose
table pass extracts a record — yet the cascade output is empty: B and C
never run. -/
theorem cascade_zero_item_shortcircuit_cex :
    strategyA (.jobj []) = .ok ([], []) ∧
    parse_html_file zeroItemDoc = .ok ([], []) ∧
    (extract_from_table ⟨["漏洞名称"], [["漏洞名称"], ["SQL注入漏洞"]]⟩).1 ≠ [] ∧
    (fallbackResult zeroItemDoc).1 ≠ [] := by
  refine ⟨rfl, rfl, by decide, by decide⟩

end VulnReport
